import Mathlib

/-!
# Verification of the storage-handling logic of a Flask + S3 file-sharing app

Shallow embedding of `app.py` (upload validation, key construction, catalog
listing, pre-signed URL generation, deletion, startup gating) together with the
parts of its collaborators that the handlers rely on: werkzeug's
`secure_filename`, Flask's `MAX_CONTENT_LENGTH` request gate, flask-login's
`login_required` redirect, and the AWS S3 delete-object semantics.

Filenames, keys and messages are modelled as `List Char`; byte counts as `Nat`;
Python float arithmetic in `round(bytes / (1024 * 1024), 2)` as exact rational
arithmetic with round-half-to-even.
-/

namespace S3App

/-! ## Character classes and Python string helpers -/

/-- ASCII lowercasing of one character, as Python `str.lower` acts on the ASCII
range (the only range the allow-list comparison can match, since every entry of
the allow-list is lowercase ASCII). -/
def lowerChar (c : Char) : Char :=
  if 'A' ≤ c ∧ c ≤ 'Z' then Char.ofNat (c.toNat + 32) else c

/-- `ALLOWED_EXTENSIONS` from `app.py`. -/
def ALLOWED_EXTENSIONS : List (List Char) :=
  ["txt".toList, "pdf".toList, "png".toList, "jpg".toList, "jpeg".toList, "gif".toList,
   "doc".toList, "docx".toList, "xls".toList, "xlsx".toList, "zip".toList, "rar".toList]

/-- The characters after the last `'.'` of a filename: this is
`filename.rsplit('.', 1)[1]` whenever the filename contains a dot. -/
def afterLastDot (l : List Char) : List Char :=
  (l.reverse.takeWhile (fun c => decide (c ≠ '.'))).reverse

/-- `allowed_file` from `app.py`:
`'.' in filename and filename.rsplit('.', 1)[1].lower() in ALLOWED_EXTENSIONS`. -/
def allowed_file (filename : List Char) : Bool :=
  decide ('.' ∈ filename) &&
    decide ((afterLastDot filename).map lowerChar ∈ ALLOWED_EXTENSIONS)

/-- The spec's wording of the extension rule: the filename splits as
`pre ++ '.' :: ext` where `ext` is the final dot-separated segment (it contains
no further dot) and its lowercasing is in the allow-list.  Stated from the
spec's words, to be compared with `allowed_file`. -/
def allowedSpec (filename : List Char) : Prop :=
  ∃ pre ext, filename = pre ++ '.' :: ext ∧ '.' ∉ ext ∧
    ext.map lowerChar ∈ ALLOWED_EXTENSIONS

/-! ## werkzeug's `secure_filename` (POSIX) -/

/-- The characters kept by werkzeug's `_filename_ascii_strip_re`, whose
pattern removes everything outside `A-Z a-z 0-9 _ . -`. -/
def isSafeFilenameChar (c : Char) : Bool :=
  (decide ('A' ≤ c) && decide (c ≤ 'Z')) || (decide ('a' ≤ c) && decide (c ≤ 'z')) ||
    (decide ('0' ≤ c) && decide (c ≤ '9')) || c == '_' || c == '.' || c == '-'

/-- Python `str.split()` whitespace: space, tab, newline, carriage return,
vertical tab, form feed. -/
def isPySpace (c : Char) : Bool :=
  c == ' ' || c == '\t' || c == '\n' || c == '\r' || c == Char.ofNat 11 || c == Char.ofNat 12

/-- Models `unicodedata.normalize('NFKD', s).encode('ascii', 'ignore')`: the
identity on ASCII characters, while non-ASCII characters are dropped (the NFKD
transliteration of non-ASCII input is not modelled). -/
def asciiEncodeIgnore (l : List Char) : List Char :=
  l.filter (fun c => decide (c.toNat < 128))

/-- `filename.replace(os.sep, ' ')` with `os.sep = '/'`
(`os.path.altsep` is `None` on POSIX, so no second replacement runs). -/
def replaceSep (l : List Char) : List Char :=
  l.map (fun c => if c = '/' then ' ' else c)

/-- Close the word currently being built: empty words are not produced. -/
def flushWord (w : List Char) (ws : List (List Char)) : List (List Char) :=
  if w = [] then ws else w :: ws

/-- Helper for `pySplitWs`: scanning from the right, returns the word currently
being built at the left end of the input, and the completed words after it. -/
def pySplitAux : List Char → List Char × List (List Char)
  | [] => ([], [])
  | c :: rest =>
    if isPySpace c then ([], flushWord (pySplitAux rest).1 (pySplitAux rest).2)
    else (c :: (pySplitAux rest).1, (pySplitAux rest).2)

/-- Python `str.split()` with no argument: splits on runs of whitespace and
produces no empty pieces. -/
def pySplitWs (l : List Char) : List (List Char) :=
  flushWord (pySplitAux l).1 (pySplitAux l).2

/-- Python `'_'.join`. -/
def joinUnderscore : List (List Char) → List Char
  | [] => []
  | [s] => s
  | s :: rest => s ++ '_' :: joinUnderscore rest

/-- The characters stripped by `.strip('._')`. -/
def isDotOrUnderscore (c : Char) : Bool := c == '.' || c == '_'

/-- Python `str.strip('._')`: drops leading and trailing `'.'`/`'_'`. -/
def stripDotUnderscore (l : List Char) : List Char :=
  ((l.dropWhile isDotOrUnderscore).reverse.dropWhile isDotOrUnderscore).reverse

/-- werkzeug's `secure_filename` on a POSIX host: NFKD-normalize and encode to
ASCII ignoring errors, replace the path separator by a space, collapse
whitespace runs with `'_'.join(filename.split())`, delete unsafe characters,
and strip leading/trailing dots and underscores.  The final branch guarding
Windows device names is skipped since `os.name` is not `'nt'`. -/
def secure_filename (l : List Char) : List Char :=
  stripDotUnderscore
    ((joinUnderscore (pySplitWs (replaceSep (asciiEncodeIgnore l)))).filter isSafeFilenameChar)

/-! ## Timestamps and storage keys -/

/-- A wall-clock timestamp, as the fields `datetime.now()` renders. -/
structure Timestamp where
  year : Nat
  month : Nat
  day : Nat
  hour : Nat
  minute : Nat
  second : Nat
deriving DecidableEq

/-- Zero-padded decimal rendering of one `strftime` field. -/
def padZeros (w : Nat) (n : Nat) : List Char :=
  let ds := Nat.toDigits 10 n
  List.replicate (w - ds.length) '0' ++ ds

/-- `datetime.now().strftime('%Y%m%d_%H%M%S')` from `upload_file`. -/
def formatTs (t : Timestamp) : List Char :=
  padZeros 4 t.year ++ padZeros 2 t.month ++ padZeros 2 t.day ++
    '_' :: (padZeros 2 t.hour ++ padZeros 2 t.minute ++ padZeros 2 t.second)

/-- `unique_filename = f"{timestamp}_{filename}"` with
`filename = secure_filename(file.filename)`. -/
def uploadKey (t : Timestamp) (rawName : List Char) : List Char :=
  formatTs t ++ '_' :: secure_filename rawName

/-! ## Catalog view (`list_files`) -/

/-- `key.split('_', 1)[1]`: everything after the first underscore. -/
def afterFirstUnderscore (l : List Char) : List Char :=
  (l.dropWhile (fun c => decide (c ≠ '_'))).tail

/-- The `original_name` computation of `list_files`:
`obj['Key'].split('_', 1)[1] if '_' in obj['Key'] else obj['Key']`. -/
def original_name (key : List Char) : List Char :=
  if '_' ∈ key then afterFirstUnderscore key else key

/-- Round a rational to the nearest integer, ties to even — the rounding rule of
Python's builtin `round`. -/
def roundHalfEven (q : ℚ) : ℤ :=
  if q - ⌊q⌋ < 1 / 2 then ⌊q⌋
  else if 1 / 2 < q - ⌊q⌋ then ⌊q⌋ + 1
  else if ⌊q⌋ % 2 = 0 then ⌊q⌋ else ⌊q⌋ + 1

/-- Python `round(x, 2)`, modelled on exact rationals. -/
def pyRound2 (q : ℚ) : ℚ := (roundHalfEven (q * 100) : ℚ) / 100

/-- `get_file_size_mb` from `app.py`: `round(size_bytes / (1024 * 1024), 2)`,
with Python float arithmetic modelled as exact rational arithmetic. -/
def get_file_size_mb (sizeBytes : Nat) : ℚ :=
  pyRound2 ((sizeBytes : ℚ) / (1024 * 1024))

/-- One object of the S3 listing (`Key`, `Size`, `LastModified`). -/
structure S3Object where
  key : List Char
  size : Nat
  lastModified : Timestamp
deriving DecidableEq

/-- `obj['LastModified'].strftime('%Y-%m-%d %H:%M:%S')`. -/
def formatDisplayTs (t : Timestamp) : List Char :=
  padZeros 4 t.year ++ '-' :: padZeros 2 t.month ++ '-' :: padZeros 2 t.day ++
    ' ' :: padZeros 2 t.hour ++ ':' :: padZeros 2 t.minute ++ ':' :: padZeros 2 t.second

/-- One row of the files page built by `list_files`. -/
structure DisplayEntry where
  key : List Char
  sizeMB : ℚ
  lastModified : List Char
  originalName : List Char
deriving DecidableEq

/-- The dictionary `list_files` appends for one S3 object. -/
def displayEntry (o : S3Object) : DisplayEntry :=
  { key := o.key
    sizeMB := get_file_size_mb o.size
    lastModified := formatDisplayTs o.lastModified
    originalName := original_name o.key }

/-- The catalog view that `list_files` derives from the backend listing. -/
def listDisplayEntries (objs : List S3Object) : List DisplayEntry :=
  objs.map displayEntry

/-! ## Request handlers and their backend call traces -/

/-- One boto3 S3-client call issued by a handler. -/
inductive S3Call where
  | uploadFileobj (key : List Char) (originalFilename : List Char)
  | listObjectsV2
  | deleteObject (key : List Char)
  | generatePresignedUrl (key : List Char) (expiresIn : Nat)
deriving DecidableEq

/-- Outcome of an upload request. -/
inductive UploadResult where
  | redirectLogin
  | noFileSelected
  | typeNotAllowed
  | sizeTooLarge
  | uploaded (displayName : List Char)
deriving DecidableEq

/-- `app.config['MAX_CONTENT_LENGTH'] = 100 * 1024 * 1024`. -/
def MAX_CONTENT_LENGTH : Nat := 100 * 1024 * 1024

/-- The POST branch of `upload_file`, together with the two gates that run
before the view body: flask-login's `login_required` redirect, and the
Flask/werkzeug `MAX_CONTENT_LENGTH` check, which aborts with 413 (rendered by
the `too_large` handler) when the request body is strictly larger than the
limit, before the view reads the file part and before any S3 call.  Returns the
S3 calls made and the outcome. -/
def handleUploadPost (authed : Bool) (contentLength : Nat) (filePart : Option (List Char))
    (now : Timestamp) : List S3Call × UploadResult :=
  if !authed then ([], .redirectLogin)
  else if MAX_CONTENT_LENGTH < contentLength then ([], .sizeTooLarge)
  else
    match filePart with
    | none => ([], .noFileSelected)
    | some rawName =>
      if rawName = [] then ([], .noFileSelected)
      else if allowed_file rawName then
        ([.uploadFileobj (uploadKey now rawName) (secure_filename rawName)],
          .uploaded (secure_filename rawName))
      else ([], .typeNotAllowed)

/-- Outcome of the read-only page handlers. -/
inductive PageResult where
  | redirectLogin
  | filesPage (entries : List DisplayEntry)
  | redirectToUrl (key : List Char) (expiresIn : Nat)
  | sharePage (key : List Char) (expiresIn : Nat)
  | statsJson (fileCount : Nat) (totalSizeMB : ℚ)
deriving DecidableEq

/-- `list_files` behind `login_required`: one `list_objects_v2` call, rendered
through `listDisplayEntries`. -/
def handleListFiles (authed : Bool) (objs : List S3Object) : List S3Call × PageResult :=
  if !authed then ([], .redirectLogin)
  else ([.listObjectsV2], .filesPage (listDisplayEntries objs))

/-- `download_file` behind `login_required`: a pre-signed GET URL with
`ExpiresIn=3600`, then a redirect to it. -/
def handleDownload (authed : Bool) (filename : List Char) : List S3Call × PageResult :=
  if !authed then ([], .redirectLogin)
  else ([.generatePresignedUrl filename 3600], .redirectToUrl filename 3600)

/-- `share_file` behind `login_required`: a pre-signed GET URL with
`ExpiresIn=604800`, rendered on the share page. -/
def handleShare (authed : Bool) (filename : List Char) : List S3Call × PageResult :=
  if !authed then ([], .redirectLogin)
  else ([.generatePresignedUrl filename 604800], .sharePage filename 604800)

/-- `storage_stats` behind `login_required`: one `list_objects_v2` call, then
the count and `get_file_size_mb` of the summed sizes. -/
def handleStorageStats (authed : Bool) (objs : List S3Object) : List S3Call × PageResult :=
  if !authed then ([], .redirectLogin)
  else ([.listObjectsV2], .statsJson objs.length (get_file_size_mb (objs.map S3Object.size).sum))

/-! ## Deletion and the S3 bucket model -/

/-- Outcome of a delete request. -/
inductive DeleteOutcome where
  | redirectLogin
  | flashSuccess
  | flashError
deriving DecidableEq

/-- Model of the AWS S3 `DeleteObject` API's effect on the bucket contents:
the object stored under `key`, if any, is removed.  Per the S3 API the call
itself succeeds whether or not the key exists — deleting a missing key raises
no error, so key absence never reaches the `ClientError` handler. -/
def s3DeleteObject (bucket : List S3Object) (key : List Char) : List S3Object :=
  bucket.filter (fun o => decide (o.key ≠ key))

/-- `delete_file` behind `login_required` over the bucket model: when the
backend is reachable the `delete_object` call returns successfully (regardless
of whether `key` is present) and the handler flashes success; a `ClientError`
(unreachable backend, missing permission — never key absence) is caught and
flashed as an error.  Returns the new bucket, the calls made, and the outcome. -/
def handleDelete (authed : Bool) (reachable : Bool) (bucket : List S3Object)
    (key : List Char) : List S3Object × List S3Call × DeleteOutcome :=
  if !authed then (bucket, [], .redirectLogin)
  else if reachable then (s3DeleteObject bucket key, [.deleteObject key], .flashSuccess)
  else (bucket, [.deleteObject key], .flashError)

/-! ## Startup (`__main__`) -/

/-- What the `__main__` block of `app.py` does before serving requests. -/
inductive StartupOutcome where
  | exitWithError
  | runServer
deriving DecidableEq

/-- The environment variables the startup block reads (`None` when unset). -/
structure Env where
  awsAccessKey : Option (List Char)
  awsSecretKey : Option (List Char)
  s3Bucket : Option (List Char)
deriving DecidableEq

/-- The `__main__` block of `app.py`: if any of `AWS_ACCESS_KEY_ID`,
`AWS_SECRET_ACCESS_KEY`, `S3_BUCKET_NAME` is unset, print guidance and
`exit(1)`; then probe the backend once with `list_objects_v2(MaxKeys=1)` and on
failure print guidance and `exit(1)`; otherwise run the server.  There is no
other branch: no driver switch and no fallback occurs in this process. -/
def startupMain (env : Env) (probeSucceeds : Bool) : StartupOutcome :=
  if !(env.awsAccessKey.isSome && env.awsSecretKey.isSome && env.s3Bucket.isSome) then
    .exitWithError
  else if !probeSucceeds then .exitWithError
  else .runServer

/-! ## Helper lemmas -/

/-- An element that fails the predicate is never removed by `dropWhile`. -/
theorem mem_dropWhile_of_mem {α : Type} {p : α → Bool} {l : List α} {a : α}
    (ha : a ∈ l) (hpa : p a = false) : a ∈ l.dropWhile p := by
  induction l with
  | nil => cases ha
  | cons b t ih =>
    rw [List.dropWhile_cons]
    rcases List.mem_cons.mp ha with rfl | hat
    · rw [hpa]; simp
    · cases hb : p b with
      | true => simpa [hb] using ih hat
      | false => simp [hb, List.mem_cons_of_mem _ hat]

/-- Membership survives `flushWord` from either component. -/
theorem mem_flushWord {w : List Char} {ws : List (List Char)} {a : Char}
    (h : a ∈ w ∨ ∃ s ∈ ws, a ∈ s) : ∃ s ∈ flushWord w ws, a ∈ s := by
  unfold flushWord
  rcases h with hw | ⟨s, hs, has⟩
  · have hne : w ≠ [] := List.ne_nil_of_mem hw
    exact ⟨w, by simp [hne], hw⟩
  · by_cases hw : w = []
    · rw [if_pos hw]
      exact ⟨s, hs, has⟩
    · rw [if_neg hw]
      exact ⟨s, List.mem_cons_of_mem _ hs, has⟩

/-- A non-whitespace element of the input appears in the output of
`pySplitAux`. -/
theorem mem_pySplitAux {l : List Char} {a : Char} (ha : a ∈ l)
    (hsp : isPySpace a = false) :
    a ∈ (pySplitAux l).1 ∨ ∃ s ∈ (pySplitAux l).2, a ∈ s := by
  induction l with
  | nil => cases ha
  | cons c rest ih =>
    rcases List.mem_cons.mp ha with rfl | hat
    · simp only [pySplitAux, hsp]
      simp
    · have hrec := ih hat
      cases hc : isPySpace c with
      | true =>
        simp only [pySplitAux, hc, if_pos]
        exact Or.inr (mem_flushWord hrec)
      | false =>
        simp only [pySplitAux, hc]
        rcases hrec with h1 | h2
        · exact Or.inl (by simpa using Or.inr h1)
        · exact Or.inr h2

/-- A non-whitespace element of the input appears in some word of
`pySplitWs`. -/
theorem mem_pySplitWs {l : List Char} {a : Char} (ha : a ∈ l)
    (hsp : isPySpace a = false) : ∃ s ∈ pySplitWs l, a ∈ s :=
  mem_flushWord (mem_pySplitAux ha hsp)

/-- Membership in a word gives membership in the underscore-join. -/
theorem mem_joinUnderscore {L : List (List Char)} {s : List Char} {a : Char}
    (hs : s ∈ L) (ha : a ∈ s) : a ∈ joinUnderscore L := by
  induction L with
  | nil => cases hs
  | cons t rest ih =>
    cases rest with
    | nil =>
      rw [List.mem_singleton] at hs
      subst hs
      simpa [joinUnderscore] using ha
    | cons u rest2 =>
      show a ∈ t ++ '_' :: joinUnderscore (u :: rest2)
      rcases List.mem_cons.mp hs with rfl | h2
      · exact List.mem_append_left _ ha
      · exact List.mem_append_right _ (List.mem_cons_of_mem _ (ih h2))

/-- A character not stripped by `.strip('._')` stays in the result. -/
theorem mem_stripDotUnderscore {l : List Char} {a : Char} (ha : a ∈ l)
    (hp : isDotOrUnderscore a = false) : a ∈ stripDotUnderscore l := by
  unfold stripDotUnderscore
  rw [List.mem_reverse]
  exact mem_dropWhile_of_mem (by rw [List.mem_reverse]; exact mem_dropWhile_of_mem ha hp) hp

/-- Every character of a sanitized filename is in the kept character class. -/
theorem secure_filename_chars_safe {l : List Char} {a : Char}
    (ha : a ∈ secure_filename l) : isSafeFilenameChar a = true := by
  unfold secure_filename stripDotUnderscore at ha
  rw [List.mem_reverse] at ha
  have ha2 := (List.dropWhile_sublist _).subset ha
  rw [List.mem_reverse] at ha2
  have ha3 := (List.dropWhile_sublist _).subset ha2
  exact (List.mem_filter.mp ha3).2

/-- Every entry of the allow-list is a nonempty word of lowercase ASCII
letters. -/
theorem allowed_words_lower :
    ∀ w ∈ ALLOWED_EXTENSIONS, w ≠ [] ∧ ∀ d ∈ w, 'a' ≤ d ∧ d ≤ 'z' := by decide

/-- A character whose lowercasing is a lowercase ASCII letter is itself an
ASCII letter. -/
theorem letter_of_lowerChar {c : Char} (h : 'a' ≤ lowerChar c ∧ lowerChar c ≤ 'z') :
    ('a' ≤ c ∧ c ≤ 'z') ∨ ('A' ≤ c ∧ c ≤ 'Z') := by
  unfold lowerChar at h
  by_cases hc : 'A' ≤ c ∧ c ≤ 'Z'
  · exact Or.inr hc
  · rw [if_neg hc] at h
    exact Or.inl h

/-- An ASCII letter survives every stage of `secure_filename`: it is ASCII, not
the path separator, not whitespace, in the safe class, and not stripped. -/
theorem letter_facts {c : Char} (h : ('a' ≤ c ∧ c ≤ 'z') ∨ ('A' ≤ c ∧ c ≤ 'Z')) :
    c.toNat < 128 ∧ c ≠ '/' ∧ isPySpace c = false ∧ isSafeFilenameChar c = true ∧
      isDotOrUnderscore c = false := by
  have hb : (97 ≤ c.toNat ∧ c.toNat ≤ 122) ∨ (65 ≤ c.toNat ∧ c.toNat ≤ 90) := h
  have hne : ∀ d : Char, d.toNat ≠ c.toNat → c ≠ d := fun d hd he => hd (by rw [he])
  have h32 : c ≠ ' ' := hne ' ' (by show 32 ≠ c.toNat; omega)
  have h9 : c ≠ '\t' := hne '\t' (by show 9 ≠ c.toNat; omega)
  have h10 : c ≠ '\n' := hne '\n' (by show 10 ≠ c.toNat; omega)
  have h13 : c ≠ '\r' := hne '\r' (by show 13 ≠ c.toNat; omega)
  have h11 : c ≠ Char.ofNat 11 := hne (Char.ofNat 11) (by show 11 ≠ c.toNat; omega)
  have h12 : c ≠ Char.ofNat 12 := hne (Char.ofNat 12) (by show 12 ≠ c.toNat; omega)
  have h46 : c ≠ '.' := hne '.' (by show 46 ≠ c.toNat; omega)
  have h95 : c ≠ '_' := hne '_' (by show 95 ≠ c.toNat; omega)
  refine ⟨by omega, hne '/' (by show 47 ≠ c.toNat; omega), ?_, ?_, ?_⟩
  · simp [isPySpace, h32, h9, h10, h13, h11, h12]
  · rcases h with ⟨h1, h2⟩ | ⟨h1, h2⟩ <;> simp [isSafeFilenameChar, h1, h2]
  · simp [isDotOrUnderscore, h46, h95]

/-- One character of the extension of an accepted filename: an ASCII letter
that belongs to the filename. -/
theorem exists_letter_of_allowed {l : List Char} (h : allowed_file l = true) :
    ∃ c ∈ l, ('a' ≤ c ∧ c ≤ 'z') ∨ ('A' ≤ c ∧ c ≤ 'Z') := by
  simp only [allowed_file, Bool.and_eq_true, decide_eq_true_eq] at h
  obtain ⟨-, hmem⟩ := h
  obtain ⟨hwne, hlow⟩ := allowed_words_lower _ hmem
  have hext_ne : afterLastDot l ≠ [] := by
    intro h0
    apply hwne
    rw [h0]
    rfl
  obtain ⟨c, hc⟩ := List.exists_mem_of_ne_nil _ hext_ne
  have hcl : c ∈ l := by
    have h1 := List.mem_reverse.mp ((List.takeWhile_sublist _).subset (List.mem_reverse.mp hc))
    exact h1
  have hlc : lowerChar c ∈ (afterLastDot l).map lowerChar := List.mem_map_of_mem _ hc
  exact ⟨c, hcl, letter_of_lowerChar (hlow _ hlc)⟩

/-- If `allowed_file` accepts a filename, its sanitized form is nonempty. -/
theorem secure_filename_ne_nil_of_allowed {l : List Char}
    (h : allowed_file l = true) : secure_filename l ≠ [] := by
  obtain ⟨c, hcl, hletter⟩ := exists_letter_of_allowed h
  obtain ⟨hascii, hsep, hspace, hsafe, hstrip⟩ := letter_facts hletter
  have a1 : c ∈ asciiEncodeIgnore l :=
    List.mem_filter.mpr ⟨hcl, by simpa using hascii⟩
  have a2 : c ∈ replaceSep (asciiEncodeIgnore l) :=
    List.mem_map.mpr ⟨c, a1, by simp [hsep]⟩
  obtain ⟨s, hs, hcs⟩ := mem_pySplitWs a2 hspace
  have a4 : c ∈ joinUnderscore (pySplitWs (replaceSep (asciiEncodeIgnore l))) :=
    mem_joinUnderscore hs hcs
  have a5 : c ∈ (joinUnderscore (pySplitWs (replaceSep (asciiEncodeIgnore l)))).filter
      isSafeFilenameChar := List.mem_filter.mpr ⟨a4, hsafe⟩
  exact List.ne_nil_of_mem (mem_stripDotUnderscore a5 hstrip)

/-- A character of the safe class is neither a path separator nor a control
character. -/
theorem safe_char_not_sep_ctrl {c : Char} (h : isSafeFilenameChar c = true) :
    c ≠ '/' ∧ c ≠ '\\' ∧ 31 < c.toNat ∧ c.toNat ≠ 127 := by
  simp only [isSafeFilenameChar, Bool.or_eq_true, Bool.and_eq_true, decide_eq_true_eq,
    beq_iff_eq] at h
  rcases h with ((((⟨h1, h2⟩ | ⟨h1, h2⟩) | ⟨h1, h2⟩) | rfl) | rfl) | rfl
  · have hlo : 65 ≤ c.toNat := h1
    have hhi : c.toNat ≤ 90 := h2
    exact ⟨fun e => by subst e; exact absurd hlo (by decide),
      fun e => by subst e; exact absurd hhi (by decide), by omega, by omega⟩
  · have hlo : 97 ≤ c.toNat := h1
    have hhi : c.toNat ≤ 122 := h2
    exact ⟨fun e => by subst e; exact absurd hlo (by decide),
      fun e => by subst e; exact absurd hlo (by decide), by omega, by omega⟩
  · have hlo : 48 ≤ c.toNat := h1
    have hhi : c.toNat ≤ 57 := h2
    exact ⟨fun e => by subst e; exact absurd hlo (by decide),
      fun e => by subst e; exact absurd hhi (by decide), by omega, by omega⟩
  · exact ⟨by decide, by decide, by decide, by decide⟩
  · exact ⟨by decide, by decide, by decide, by decide⟩
  · exact ⟨by decide, by decide, by decide, by decide⟩

/-- `allowed_file` coincides with the spec's wording: some decomposition
`pre ++ '.' :: ext` with a dot-free final segment whose lowercasing is
allow-listed. -/
theorem allowed_file_eq_spec (l : List Char) : allowed_file l = true ↔ allowedSpec l := by
  constructor
  · intro h
    simp only [allowed_file, Bool.and_eq_true, decide_eq_true_eq] at h
    obtain ⟨hdot, hmem⟩ := h
    cases hcons : l.reverse.dropWhile (fun c => decide (c ≠ '.')) with
    | nil =>
      exfalso
      have hall : l.reverse.takeWhile (fun c => decide (c ≠ '.')) = l.reverse := by
        have hsplit := List.takeWhile_append_dropWhile
          (p := fun c => decide (c ≠ '.')) (l := l.reverse)
        rw [hcons, List.append_nil] at hsplit
        exact hsplit
      have hdot' : '.' ∈ l.reverse.takeWhile (fun c => decide (c ≠ '.')) := by
        rw [hall, List.mem_reverse]
        exact hdot
      have := List.mem_takeWhile_imp hdot'
      simp at this
    | cons b t =>
      have hb : b = '.' := by
        have h0 := List.head?_dropWhile_not (fun c => decide (c ≠ '.')) l.reverse
        rw [hcons] at h0
        simpa using h0
      subst hb
      refine ⟨t.reverse, afterLastDot l, ?_, ?_, hmem⟩
      · have hdecomp : l = (l.reverse.dropWhile (fun c => decide (c ≠ '.'))).reverse
            ++ afterLastDot l := by
          conv_lhs => rw [← List.reverse_reverse l,
            ← List.takeWhile_append_dropWhile (p := fun c => decide (c ≠ '.'))
              (l := l.reverse)]
          rw [List.reverse_append]
          rfl
        rw [hcons] at hdecomp
        simpa [List.append_assoc] using hdecomp
      · intro hmem'
        have := List.mem_takeWhile_imp (List.mem_reverse.mp hmem')
        simp at this
  · rintro ⟨pre, ext, rfl, hno, hmem⟩
    have hext : afterLastDot (pre ++ '.' :: ext) = ext := by
      unfold afterLastDot
      rw [List.reverse_append, List.reverse_cons, List.append_assoc,
        List.takeWhile_append_of_pos (fun a ha => by
          simp only [decide_eq_true_eq]
          exact fun e => hno (e ▸ List.mem_reverse.mp ha)),
        List.singleton_append, List.takeWhile_cons_of_neg (by simp)]
      simp
    simp only [allowed_file, Bool.and_eq_true, decide_eq_true_eq]
    exact ⟨List.mem_append_right _ (List.mem_cons_self _ _), by rw [hext]; exact hmem⟩

/-! ## Claim theorems -/

/-- C1: the claim says the catalog recovers `originalName = f` by splitting the
key on the first separator; but the timestamp prefix `%Y%m%d_%H%M%S` itself
contains an underscore, so splitting the key `20240115_093000_report.pdf` on
its first `'_'` yields `093000_report.pdf`, not `report.pdf`.  This theorem
evaluates the code's key construction and `original_name` recovery at that
input, exhibiting the divergence. -/
theorem upload_key_original_name_code_bug :
    uploadKey ⟨2024, 1, 15, 9, 30, 0⟩ "report.pdf".toList
        = "20240115_093000_report.pdf".toList ∧
    (listDisplayEntries
        [⟨uploadKey ⟨2024, 1, 15, 9, 30, 0⟩ "report.pdf".toList, 2000000,
          ⟨2024, 1, 15, 9, 30, 0⟩⟩]).map DisplayEntry.originalName
        = ["093000_report.pdf".toList] ∧
    "093000_report.pdf".toList ≠ "report.pdf".toList := by
  refine ⟨by decide, ?_, by decide⟩
  show [original_name (uploadKey ⟨2024, 1, 15, 9, 30, 0⟩ "report.pdf".toList)] = _
  decide

/-- C2 counterexample: the claim says that when the startup probe fails or
credentials are absent the process does not exit and falls back to a
local-filesystem driver; but the `__main__` block of `app.py` calls `exit(1)`
in both situations (shown here at concrete inputs), and `startupMain` has no
fallback branch at all. -/
theorem startup_no_fallback_counterexample :
    startupMain ⟨some "AKIAEXAMPLE".toList, some "secretkey".toList,
        some "mybucket".toList⟩ false = .exitWithError ∧
    startupMain ⟨none, none, none⟩ true = .exitWithError := by
  decide

/-- C2 amended: if the single startup probe fails, or any required credential
is absent, the process prints guidance and exits with status 1; no
local-filesystem fallback occurs in this process. -/
theorem startup_failure_exits (env : Env) (probe : Bool)
    (h : env.awsAccessKey = none ∨ env.awsSecretKey = none ∨ env.s3Bucket = none ∨
      probe = false) :
    startupMain env probe = .exitWithError := by
  rcases h with h | h | h | h <;> simp [startupMain, h, ite_self]

/-- Witness for `startup_failure_exits` at a concrete environment. -/
theorem startup_failure_exits_witness :
    startupMain ⟨none, some "k".toList, some "b".toList⟩ true = .exitWithError :=
  startup_failure_exits ⟨none, some "k".toList, some "b".toList⟩ true (Or.inl rfl)

/-- C3: `allowed_file` accepts a filename iff it has a dot and the final
dot-separated segment, lowercased, is in the allow-list; and whenever it
rejects, the upload handler issues no backend call (the put is never
reached). -/
theorem allowed_file_characterization (f : List Char) :
    (allowed_file f = true ↔ allowedSpec f) ∧
    (allowed_file f = false →
      ∀ (authed : Bool) (cl : Nat) (ts : Timestamp),
        (handleUploadPost authed cl (some f) ts).1 = []) := by
  refine ⟨allowed_file_eq_spec f, fun h authed cl ts => ?_⟩
  cases authed with
  | false => simp [handleUploadPost]
  | true =>
    by_cases hcl : MAX_CONTENT_LENGTH < cl
    · simp [handleUploadPost, hcl]
    · by_cases hf : f = [] <;> simp [handleUploadPost, hcl, hf, h]

/-- Witness for `allowed_file_characterization`: a disallowed extension is
rejected with no backend call. -/
theorem allowed_file_characterization_witness :
    (handleUploadPost true 5 (some "virus.exe".toList) ⟨2024, 1, 15, 9, 30, 0⟩).1 = [] :=
  (allowed_file_characterization "virus.exe".toList).2 (by decide) true 5
    ⟨2024, 1, 15, 9, 30, 0⟩

/-- C4: the ceiling is 104857600 bytes; a request of exactly that size passes
the gate and (for an accepted filename) is stored, while a request of
ceiling + 1 bytes is rejected with the 413 size error and no backend call. -/
theorem upload_size_boundary (f : List Char) (ts : Timestamp)
    (hall : allowed_file f = true) :
    MAX_CONTENT_LENGTH = 104857600 ∧
    handleUploadPost true MAX_CONTENT_LENGTH (some f) ts
      = ([.uploadFileobj (uploadKey ts f) (secure_filename f)],
         .uploaded (secure_filename f)) ∧
    handleUploadPost true (MAX_CONTENT_LENGTH + 1) (some f) ts
      = ([], .sizeTooLarge) := by
  have hf : f ≠ [] := by
    intro h0
    rw [h0] at hall
    simp [allowed_file] at hall
  refine ⟨rfl, ?_, ?_⟩
  · simp [handleUploadPost, hf, hall]
  · simp [handleUploadPost]

/-- Witness for `upload_size_boundary` at `report.pdf`. -/
theorem upload_size_boundary_witness :
    handleUploadPost true (MAX_CONTENT_LENGTH + 1) (some "report.pdf".toList)
        ⟨2024, 1, 15, 9, 30, 0⟩ = ([], .sizeTooLarge) :=
  (upload_size_boundary "report.pdf".toList ⟨2024, 1, 15, 9, 30, 0⟩ (by decide)).2.2

/-- C5: deleting an absent key reports success (never an error), and a second
delete of the same key directly after a first one also reports success. -/
theorem delete_idempotent (bucket : List S3Object) (key : List Char) :
    (key ∉ bucket.map S3Object.key →
      (handleDelete true true bucket key).2.2 = .flashSuccess) ∧
    (handleDelete true true (handleDelete true true bucket key).1 key).2.2
      = .flashSuccess := by
  simp [handleDelete]

/-- Witness for `delete_idempotent`: deleting a key from an empty bucket. -/
theorem delete_idempotent_witness :
    (handleDelete true true [] "absent.txt".toList).2.2 = DeleteOutcome.flashSuccess :=
  (delete_idempotent [] "absent.txt".toList).1 (by decide)

/-- C6: every download request signs its URL with expiry 3600 seconds and
every share request with expiry 604800 seconds. -/
theorem presigned_url_expiry_constants (key : List Char) :
    (handleDownload true key).1 = [.generatePresignedUrl key 3600] ∧
    (handleShare true key).1 = [.generatePresignedUrl key 604800] := by
  simp [handleDownload, handleShare]

/-- C7: sanitization yields no path separator and no control character, and a
filename whose sanitized form is empty is never stored: the handler makes no
backend call and does not report an upload. -/
theorem sanitization_safe_and_rejects_empty (f : List Char) (cl : Nat) (ts : Timestamp) :
    (∀ c ∈ secure_filename f, c ≠ '/' ∧ c ≠ '\\' ∧ 31 < c.toNat ∧ c.toNat ≠ 127) ∧
    (secure_filename f = [] →
      (handleUploadPost true cl (some f) ts).1 = [] ∧
      ∀ name, (handleUploadPost true cl (some f) ts).2 ≠ .uploaded name) := by
  constructor
  · intro c hc
    exact safe_char_not_sep_ctrl (secure_filename_chars_safe hc)
  · intro hnil
    have hall : allowed_file f = false := by
      cases h : allowed_file f with
      | false => rfl
      | true => exact absurd hnil (secure_filename_ne_nil_of_allowed h)
    by_cases hcl : MAX_CONTENT_LENGTH < cl
    · simp [handleUploadPost, hcl]
    · by_cases hf : f = [] <;> simp [handleUploadPost, hcl, hf, hall]

/-- Witness for `sanitization_safe_and_rejects_empty`: the filename `...`
sanitizes to the empty string and produces no backend call; and a character of
a sanitized name is safe. -/
theorem sanitization_witness :
    (handleUploadPost true 5 (some "...".toList) ⟨2024, 1, 15, 9, 30, 0⟩).1 = [] ∧
    ('p' ≠ '/' ∧ 'p' ≠ '\\' ∧ 31 < 'p'.toNat ∧ 'p'.toNat ≠ 127) :=
  ⟨((sanitization_safe_and_rejects_empty "...".toList 5 ⟨2024, 1, 15, 9, 30, 0⟩).2
      (by decide)).1,
    (sanitization_safe_and_rejects_empty "report.pdf".toList 5
      ⟨2024, 1, 15, 9, 30, 0⟩).1 'p' (by decide)⟩

/-- C8: the catalog reports each object's size as
`round(sizeBytes / 1048576, 2)`, and 2,000,000 bytes display as 1.91 MB. -/
theorem catalog_size_mb (objs : List S3Object) :
    (listDisplayEntries objs).map DisplayEntry.sizeMB
        = objs.map (fun o => pyRound2 ((o.size : ℚ) / 1048576)) ∧
    get_file_size_mb 2000000 = 191 / 100 := by
  constructor
  · simp only [listDisplayEntries, List.map_map]
    congr 1
    funext o
    show get_file_size_mb o.size = _
    unfold get_file_size_mb
    norm_num
  · have hq : ((2000000 : ℕ) : ℚ) / (1024 * 1024) * 100 = 390625 / 2048 := by norm_num
    have hfl : ⌊(390625 / 2048 : ℚ)⌋ = 190 := by
      rw [Int.floor_eq_iff]
      norm_num
    unfold get_file_size_mb pyRound2 roundHalfEven
    rw [hq, hfl, if_neg (by norm_num), if_pos (by norm_num)]
    norm_num

/-- C9: with an unauthenticated session, every storage operation redirects at
the `login_required` gate and issues zero backend calls. -/
theorem unauthenticated_no_backend_calls (cl : Nat) (fp : Option (List Char))
    (ts : Timestamp) (objs bucket : List S3Object) (key : List Char) (reachable : Bool) :
    (handleUploadPost false cl fp ts).1 = [] ∧
    (handleListFiles false objs).1 = [] ∧
    (handleDownload false key).1 = [] ∧
    (handleDelete false reachable bucket key).2.1 = [] ∧
    (handleShare false key).1 = [] ∧
    (handleStorageStats false objs).1 = [] := by
  simp [handleUploadPost, handleListFiles, handleDownload, handleDelete, handleShare,
    handleStorageStats]

/-- C10: every upload key contains an underscore — the timestamp prefix itself
contains one and the join adds another — so the catalog's no-separator
fallback branch (`originalName = key`) is never taken for such a key. -/
theorem upload_key_contains_underscore (t : Timestamp) (f : List Char) :
    '_' ∈ formatTs t ∧ '_' ∈ uploadKey t f ∧
      original_name (uploadKey t f) = afterFirstUnderscore (uploadKey t f) := by
  have h1 : '_' ∈ formatTs t := by
    unfold formatTs
    simp
  have h2 : '_' ∈ uploadKey t f :=
    List.mem_append_right _ (List.mem_cons_self _ _)
  exact ⟨h1, h2, by rw [original_name, if_pos h2]⟩

end S3App
